import Mathlib

/-!
# Verification of the polyglot-i18n core (ReScript sources)

Shallow embedding of `src/core/Locale` (in `Plural.res`), `src/core/Catalog.res`,
`src/core/Plural.res`, `src/core/I18n.res` and `src/core/RelativeTime.res`.

Modelling conventions:
* ReScript/JS strings are Lean `String`; `String.split` on a one-character
  separator is `jsSplit`; `String.toLowerCase` on the ASCII range is
  `jsToLower` (only validated ASCII language subtags reach it in the source).
* JS numbers are modelled as `Rat`.  Every JS float is a dyadic rational whose
  `Float.toString` (in the non-exponent range) prints the exact terminating
  decimal expansion of that rational; `ratToString` reproduces this printing
  and `ratFracDigits` the fraction-digit list that `getOperands` obtains by
  splitting the printed string on ".".
* `Belt.Map.String.t` is an association list kept sorted by key
  (`BeltMap.set` is sorted insertion, as Belt maps iterate in key order);
  `Js.Dict.t` is an association list in insertion order (`jsDictSet`).
* `result<a, string>` is `Except String a`; `option` is `Option`.
-/

set_option maxRecDepth 4000

namespace I18nSpec

/-! ## JS string primitives -/

/-- Splitting a character list on a separator character, JS
`String.split(sep)` semantics: `"".split(sep) = [""]`, empty segments kept. -/
def jsSplitAux (sep : Char) : List Char → List Char → List String
  | [], acc => [String.mk acc.reverse]
  | c :: rest, acc =>
    if c = sep then String.mk acc.reverse :: jsSplitAux sep rest []
    else jsSplitAux sep rest (c :: acc)

/-- JS `String.split` with a one-character separator. -/
def jsSplit (sep : Char) (s : String) : List String :=
  jsSplitAux sep s.toList []

/-- ASCII lowercasing of one character (JS `toLowerCase` restricted to the
ASCII letters, the only characters the source lowercases: the language
subtag is validated as 2-3 ASCII letters before being lowercased). -/
def lowerChar (c : Char) : Char :=
  match c with
  | 'A' => 'a' | 'B' => 'b' | 'C' => 'c' | 'D' => 'd' | 'E' => 'e'
  | 'F' => 'f' | 'G' => 'g' | 'H' => 'h' | 'I' => 'i' | 'J' => 'j'
  | 'K' => 'k' | 'L' => 'l' | 'M' => 'm' | 'N' => 'n' | 'O' => 'o'
  | 'P' => 'p' | 'Q' => 'q' | 'R' => 'r' | 'S' => 's' | 'T' => 't'
  | 'U' => 'u' | 'V' => 'v' | 'W' => 'w' | 'X' => 'x' | 'Y' => 'y'
  | 'Z' => 'z'
  | c => c

/-- JS `String.toLowerCase` (ASCII range). -/
def jsToLower (s : String) : String :=
  String.mk (s.toList.map lowerChar)

/-! ## Locale (`Locale` module of `Plural.res`, both versions agree) -/

namespace Locale

/-- The character class `[a-z]`. -/
def lowerChars : List Char :=
  ['a', 'b', 'c', 'd', 'e', 'f', 'g', 'h', 'i', 'j', 'k', 'l', 'm',
   'n', 'o', 'p', 'q', 'r', 's', 't', 'u', 'v', 'w', 'x', 'y', 'z']

/-- The character class `[A-Z]`. -/
def upperChars : List Char :=
  ['A', 'B', 'C', 'D', 'E', 'F', 'G', 'H', 'I', 'J', 'K', 'L', 'M',
   'N', 'O', 'P', 'Q', 'R', 'S', 'T', 'U', 'V', 'W', 'X', 'Y', 'Z']

/-- The character class `[0-9]`. -/
def digitChars : List Char :=
  ['0', '1', '2', '3', '4', '5', '6', '7', '8', '9']

def isLowerB (c : Char) : Bool := lowerChars.contains c

def isUpperB (c : Char) : Bool := upperChars.contains c

/-- `[a-z]` with the `i` flag. -/
def isAsciiLetterB (c : Char) : Bool := isLowerB c || isUpperB c

def isDigitB (c : Char) : Bool := digitChars.contains c

/-- `languagePattern = /^[a-z]{2,3}$/i`. -/
def languagePattern (s : String) : Bool :=
  (s.toList.length == 2 || s.toList.length == 3) && s.toList.all isAsciiLetterB

/-- `scriptPattern = /^[A-Z][a-z]{3}$/`. -/
def scriptPattern (s : String) : Bool :=
  match s.toList with
  | [a, b, c, d] => isUpperB a && isLowerB b && isLowerB c && isLowerB d
  | _ => false

/-- `regionPattern = /^[A-Z]{2}$|^[0-9]{3}$/`. -/
def regionPattern (s : String) : Bool :=
  (s.toList.length == 2 && s.toList.all isUpperB) ||
  (s.toList.length == 3 && s.toList.all isDigitB)

/-- `LanguageTag.t`: BCP 47 language tag components. -/
structure LanguageTag where
  language : String
  script : Option String
  region : Option String
  variants : List String
deriving DecidableEq

/-- `LanguageTag.parse`: split on "-"; the first segment must match the
language pattern; the next segment is greedily classified as script, the
one after as region; the remainder is variants; language is lowercased. -/
def LanguageTag.parse (tag : String) : Option LanguageTag :=
  match jsSplit '-' tag with
  | [] => none
  | lang :: rest =>
    if languagePattern lang then
      let script := (rest.get? 0).bind fun s =>
        if scriptPattern s then some s else none
      let regionIdx := if script.isSome then 1 else 0
      let region := (rest.get? regionIdx).bind fun r =>
        if regionPattern r then some r else none
      let variantIdx := regionIdx + (if region.isSome then 1 else 0)
      let variants := rest.drop variantIdx
      some { language := jsToLower lang, script, region, variants }
    else none

/-- `LanguageTag.toString`: join language, script, region, variants with "-". -/
def LanguageTag.toString (tag : LanguageTag) : String :=
  String.intercalate "-" ([tag.language] ++ tag.script.toList ++ tag.region.toList ++ tag.variants)

/-- `Locale.t`: a validated locale, with its canonical string. -/
structure t where
  tag : LanguageTag
  raw : String
deriving DecidableEq

/-- `Locale.fromString`. -/
def fromString (s : String) : Option t :=
  (LanguageTag.parse s).map fun tag => { tag, raw := tag.toString }

/-- `Locale.toString`. -/
def toString (locale : t) : String := locale.raw

/-- `Locale.language` (also bound as `getLanguage` by callers). -/
def language (locale : t) : String := locale.tag.language

/-- `Locale.eq`: equality by canonical string. -/
def eq (a b : t) : Bool := a.raw == b.raw

/-- `Locale.parent`: drop to the bare language when a region or a script is
present; a locale with neither has no parent. -/
def parent (locale : t) : Option t :=
  match locale.tag.region, locale.tag.script with
  | some _, _ => fromString locale.tag.language
  | none, some _ => fromString locale.tag.language
  | none, none => none

end Locale

/-! ## Belt.Map.String and Js.Dict models -/

/-- Lexicographic character-list comparison: the JS string "<" that orders
Belt string maps (code-unit order; identical on the code points that occur
here). -/
def charListLt : List Char → List Char → Bool
  | [], [] => false
  | [], _ :: _ => true
  | _ :: _, [] => false
  | a :: as, b :: bs =>
    if a < b then true
    else if b < a then false
    else charListLt as bs

/-- The string order used by the Belt map and set models. -/
def strLtB (a b : String) : Bool := charListLt a.toList b.toList

namespace BeltMap

variable {α : Type}

/-- `Belt.Map.String.get`. -/
def get (m : List (String × α)) (k : String) : Option α :=
  (m.find? (fun p => p.1 == k)).map (·.2)

/-- `Belt.Map.String.set`: sorted insertion (Belt maps iterate in ascending
key order), replacing the binding when the key is already present. -/
def set (m : List (String × α)) (k : String) (v : α) : List (String × α) :=
  match m with
  | [] => [(k, v)]
  | (k', v') :: rest =>
    if strLtB k k' then (k, v) :: (k', v') :: rest
    else if k == k' then (k, v) :: rest
    else (k', v') :: set rest k v

/-- `Belt.Map.String.keysToArray` (ascending order on a well-formed map). -/
def keysToArray (m : List (String × α)) : List String := m.map (·.1)

/-- `Belt.Set.String.fromArray` then `toArray`: sorted deduplicated keys;
one sorted-unique insertion step. -/
def insertSortedUnique (l : List String) (k : String) : List String :=
  match l with
  | [] => [k]
  | x :: rest =>
    if strLtB k x then k :: x :: rest
    else if k == x then x :: rest
    else x :: insertSortedUnique rest k

/-- `Belt.Set.String.fromArray` followed by `toArray`. -/
def sortedUniqueKeys (l : List String) : List String :=
  l.foldl insertSortedUnique []

end BeltMap

/-- `Js.Dict.get`: first binding for the key. -/
def jsDictGet {α : Type} (d : List (String × α)) (k : String) : Option α :=
  (d.find? (fun p => p.1 == k)).map (·.2)

/-- `Js.Dict.set`: replace in place when present, else append (JS object
insertion order). -/
def jsDictSet {α : Type} (d : List (String × α)) (k : String) (v : α) :
    List (String × α) :=
  match d with
  | [] => [(k, v)]
  | (k', v') :: rest =>
    if k' == k then (k', v) :: rest else (k', v') :: jsDictSet rest k v

/-- `Js.Json.t`. `classify` is structural matching on the constructors. -/
inductive Json where
  | str : String → Json
  | num : Rat → Json
  | boolean : Bool → Json
  | null : Json
  | arr : List Json → Json
  | obj : List (String × Json) → Json

/-- `Js.Date.now()`: the current clock, an environment value no claim
observes; modelled as an arbitrary fixed instant. -/
def dateNow : Rat := 0

/-! ## Catalog (`Catalog.res`) -/

namespace Catalog

/-- `Plural` payload of `translationValue`: optional categories plus the
mandatory "other" form. -/
structure pluralForms where
  zero : Option String
  one : Option String
  two : Option String
  few : Option String
  many : Option String
  other : String
deriving DecidableEq

/-- `translationValue`: a simple string, plural forms, or a nested map. -/
inductive translationValue where
  | Simple : String → translationValue
  | Plural : pluralForms → translationValue
  | Nested : List (String × translationValue) → translationValue

/-- `translations = Belt.Map.String.t<translationValue>`. -/
abbrev translations := List (String × translationValue)

/-- `metadata`. -/
structure metadata where
  version : Option String
  lastModified : Option Rat
  source : Option String
deriving DecidableEq

/-- `Catalog.t`. -/
structure t where
  locale : Locale.t
  translations : translations
  metadata : metadata

/-- `Catalog.empty`. -/
def empty (locale : Locale.t) : t :=
  { locale
    translations := []
    metadata := { version := none, lastModified := none, source := none } }

/-- The inner `traverse` of `Catalog.get`: walk dot segments through
`Nested` values; any non-`Nested` intermediate yields `none`. -/
def traverse : translations → List String → Option translationValue
  | _, [] => none
  | m, [single] => BeltMap.get m single
  | m, head :: rest =>
    match BeltMap.get m head with
    | some (.Nested nested) => traverse nested rest
    | _ => none

/-- `Catalog.get`: dot-notation lookup. -/
def get (catalog : t) (key : String) : Option translationValue :=
  traverse catalog.translations (jsSplit '.' key)

/-- `Catalog.getString`: unwrap `Simple` directly or `Plural` via "other". -/
def getString (catalog : t) (key : String) : Option String :=
  match get catalog key with
  | some (.Simple s) => some s
  | some (.Plural pf) => some pf.other
  | _ => none

/-- The inner `updateNested` of `Catalog.set`. -/
def updateNested : translations → List String → translationValue → translations
  | m, [], _ => m
  | m, [single], value => BeltMap.set m single value
  | m, head :: rest, value =>
    let existing := match BeltMap.get m head with
      | some (.Nested nested) => nested
      | _ => []
    BeltMap.set m head (.Nested (updateNested existing rest value))

/-- `Catalog.set`: rebuild the nested path, returning a new catalog. -/
def set (catalog : t) (key : String) (value : translationValue) : t :=
  { catalog with
    translations := updateNested catalog.translations (jsSplit '.' key) value
    metadata := { catalog.metadata with lastModified := some dateNow } }

/-- The inner `mergeTranslations` of `Catalog.merge`: top-level key-wise
union, overlay wins; the `Simple("")` arm is the source's unreachable
default. -/
def mergeTranslations (a b : translations) : translations :=
  let allKeys := BeltMap.sortedUniqueKeys
    (BeltMap.keysToArray a ++ BeltMap.keysToArray b)
  allKeys.foldl (fun acc key =>
    let value := match BeltMap.get a key, BeltMap.get b key with
      | _, some v => v
      | some v, none => v
      | none, none => .Simple ""
    BeltMap.set acc key value) []

/-- `Catalog.merge`: overlay takes precedence; locale and metadata come
from the overlay. -/
def merge (base overlay : t) : t :=
  { locale := overlay.locale
    translations := mergeTranslations base.translations overlay.translations
    metadata := overlay.metadata }

/-- The `getStr` helper of `parseValue`: string members only. -/
def getStrJson : Json → Option String
  | .str s => some s
  | _ => none

mutual

/-- The inner `parseValue` of `Catalog.fromJson`: strings are `Simple`;
objects with a string "other" member are `Plural`; other objects are
`Nested`; all other JSON kinds are dropped (`none`). -/
def parseValue : Json → Option translationValue
  | .str s => some (.Simple s)
  | .obj obj =>
    if (jsDictGet obj "other").isSome then
      match (jsDictGet obj "other").bind getStrJson with
      | some other =>
        some (.Plural
          { zero := (jsDictGet obj "zero").bind getStrJson
            one := (jsDictGet obj "one").bind getStrJson
            two := (jsDictGet obj "two").bind getStrJson
            few := (jsDictGet obj "few").bind getStrJson
            many := (jsDictGet obj "many").bind getStrJson
            other })
      | none => none
    else
      some (.Nested (parseEntries obj []))
  | _ => none

/-- The `Array.reduce` over object entries inside `fromJson`/`parseValue`:
keep the members `parseValue` accepts, dropping the rest. -/
def parseEntries : List (String × Json) → translations → translations
  | [], acc => acc
  | (k, v) :: rest, acc =>
    match parseValue v with
    | some tv => parseEntries rest (BeltMap.set acc k tv)
    | none => parseEntries rest acc

end

/-- `Catalog.fromJson`: the root must be a JSON object. -/
def fromJson (locale : Locale.t) (json : Json) : Except String t :=
  match json with
  | .obj obj =>
    .ok { locale
          translations := parseEntries obj []
          metadata :=
            { version := none, lastModified := some dateNow, source := none } }
  | _ => .error "Expected JSON object at root"

mutual

/-- The inner `valueToJson` of `Catalog.toJson`. -/
def valueToJson : translationValue → Json
  | .Simple s => .str s
  | .Plural pf =>
    let obj : List (String × Json) := []
    let obj := match pf.zero with
      | some v => jsDictSet obj "zero" (.str v) | none => obj
    let obj := match pf.one with
      | some v => jsDictSet obj "one" (.str v) | none => obj
    let obj := match pf.two with
      | some v => jsDictSet obj "two" (.str v) | none => obj
    let obj := match pf.few with
      | some v => jsDictSet obj "few" (.str v) | none => obj
    let obj := match pf.many with
      | some v => jsDictSet obj "many" (.str v) | none => obj
    .obj (jsDictSet obj "other" (.str pf.other))
  | .Nested nested => .obj (entriesToJson nested [])

/-- The `forEach` into a `Js.Dict` inside `toJson`/`valueToJson`. -/
def entriesToJson : translations → List (String × Json) → List (String × Json)
  | [], obj => obj
  | (k, v) :: rest, obj => entriesToJson rest (jsDictSet obj k (valueToJson v))

end

/-- `Catalog.toJson`. -/
def toJson (catalog : t) : Json :=
  .obj (entriesToJson catalog.translations [])

end Catalog

/-! ## JS number primitives (JS numbers modelled as `Rat`) -/

/-- Kernel-computable rational arithmetic.  The standard `Rat` field
operations are `@[irreducible]`, so the model uses these wrappers, each
equal to the corresponding field operation on the values that occur
(denominators are never zero where the source divides). -/
def ratMul (a b : Rat) : Rat := Rat.divInt (a.num * b.num) ((a.den : Int) * b.den)

def ratDivQ (a b : Rat) : Rat := Rat.divInt (a.num * b.den) ((a.den : Int) * b.num)

def ratAdd (a b : Rat) : Rat := Rat.divInt (a.num * b.den + b.num * a.den) ((a.den : Int) * b.den)

def ratSub (a b : Rat) : Rat := Rat.divInt (a.num * b.den - b.num * a.den) ((a.den : Int) * b.den)

def intToRat (n : Int) : Rat := Rat.divInt n 1

/-- `Js.Math.abs_float`. -/
def jsAbs (q : Rat) : Rat := if q < 0 then Rat.divInt (-q.num) q.den else q

/-- Floor of a rational as an integer (`den` is positive). -/
def ratFloor (q : Rat) : Int := q.num.fdiv q.den

/-- Truncation toward zero, as in JS float-to-int and `fmod`. -/
def jsTrunc (q : Rat) : Int := Int.tdiv q.num q.den

/-- OCaml/ReScript `mod_float` (C `fmod`): remainder with truncated
quotient.  Only applied to nonnegative operands in the source. -/
def jsFmod (a b : Rat) : Rat := ratSub a (ratMul b (intToRat (jsTrunc (ratDivQ a b))))

/-- `Js.Math.round`: round half toward positive infinity. -/
def jsRound (q : Rat) : Rat := intToRat (ratFloor (ratAdd q (Rat.divInt 1 2)))

/-- Decimal fraction digits of `r / den` (`r < den`), most significant
first, stopping at remainder zero; fuel bounds the output (JS prints at
most 17 significant digits; every number a claim evaluates terminates well
inside the fuel). -/
def ratFracDigitsAux (den : Nat) : Nat → Nat → List Nat
  | _, 0 => []
  | r, fuel + 1 =>
    if r == 0 then []
    else (r * 10) / den :: ratFracDigitsAux den ((r * 10) % den) fuel

/-- Fraction digits of the decimal expansion of a nonnegative rational:
exactly the characters after "." in the JS printing of the number (the
shortest round-trip printing of a float has no trailing zeros and is the
exact decimal value of the corresponding rational). -/
def ratFracDigits (q : Rat) : List Nat :=
  ratFracDigitsAux q.den (q.num.natAbs % q.den) 30

/-- Strip trailing zero digits (`/0+$/` replacement in `getOperands`). -/
def stripTrailingZeros (ds : List Nat) : List Nat :=
  (ds.reverse.dropWhile (· == 0)).reverse

/-- A digit list read back as a number (`Float.fromString` of the digit
substring; the empty string reads as the `getOr(0.0)` default). -/
def digitsVal (ds : List Nat) : Nat :=
  ds.foldl (fun acc d => acc * 10 + d) 0

/-- `Float.toString` for the non-exponent range: sign, integer digits and,
when the fraction is nonzero, "." and the fraction digits. -/
def ratToString (q : Rat) : String :=
  let sign := if q < 0 then "-" else ""
  let a := jsAbs q
  let ip := (ratFloor a).toNat
  let ds := ratFracDigits a
  if ds.isEmpty then sign ++ Nat.repr ip
  else sign ++ Nat.repr ip ++ "." ++ String.mk (ds.map Nat.digitChar)

/-! ## Plural rule engine (`Plural.res`) -/

namespace Plural

/-- CLDR plural categories. -/
inductive category where
  | Zero
  | One
  | Two
  | Few
  | Many
  | Other
deriving DecidableEq

/-- `categoryToString`. -/
def categoryToString (cat : category) : String :=
  match cat with
  | .Zero => "zero"
  | .One => "one"
  | .Two => "two"
  | .Few => "few"
  | .Many => "many"
  | .Other => "other"

/-- `categoryFromString`. -/
def categoryFromString (s : String) : Option category :=
  match s with
  | "zero" => some .Zero
  | "one" => some .One
  | "two" => some .Two
  | "few" => some .Few
  | "many" => some .Many
  | "other" => some .Other
  | _ => none

/-- CLDR operands. -/
structure operands where
  n : Rat
  i : Rat
  v : Nat
  w : Nat
  f : Rat
  t : Rat
  c : Int
  e : Int

/-- `getOperands`: derive the operands from the decimal printing of the
absolute value, split on "." (`ratFracDigits` is that printing's fraction
digit list, see its doc comment). -/
def getOperands (n : Rat) : operands :=
  let absN := jsAbs n
  let fracPart := ratFracDigits absN
  let i : Rat := intToRat (ratFloor absN)
  let v := fracPart.length
  let fracWithoutZeros := stripTrailingZeros fracPart
  let w := fracWithoutZeros.length
  let f : Rat := intToRat (digitsVal fracPart)
  let t : Rat := intToRat (digitsVal fracWithoutZeros)
  { n := absN, i, v, w, f, t, c := 0, e := 0 }

/- Pure per-language rule functions (`Rules`). -/
namespace Rules

/-- English: one for integer 1. -/
def en (op : operands) : category :=
  if op.i = 1 ∧ op.v = 0 then .One else .Other

/-- German: same as English. -/
def de := en

/-- French: one for integer part 0 or 1. -/
def fr (op : operands) : category :=
  if op.i = 0 ∨ op.i = 1 then .One else .Other

/-- Russian: mod-10/mod-100 one/few/many. -/
def ru (op : operands) : category :=
  let mod10 := jsFmod op.i 10
  let mod100 := jsFmod op.i 100
  if op.v = 0 then
    if mod10 = 1 ∧ mod100 ≠ 11 then .One
    else if mod10 ≥ 2 ∧ mod10 ≤ 4 ∧ (mod100 < 12 ∨ mod100 > 14) then .Few
    else if mod10 = 0 ∨ (mod10 ≥ 5 ∧ mod10 ≤ 9) ∨ (mod100 ≥ 11 ∧ mod100 ≤ 14)
      then .Many
    else .Other
  else .Other

/-- Arabic: six categories keyed off `n` and `n mod 100`. -/
def ar (op : operands) : category :=
  let mod100 := jsFmod op.n 100
  if op.n = 0 then .Zero
  else if op.n = 1 then .One
  else if op.n = 2 then .Two
  else if mod100 ≥ 3 ∧ mod100 ≤ 10 then .Few
  else if mod100 ≥ 11 ∧ mod100 ≤ 99 then .Many
  else .Other

/-- Polish: few and many. -/
def pl (op : operands) : category :=
  let mod10 := jsFmod op.i 10
  let mod100 := jsFmod op.i 100
  if op.v = 0 then
    if op.i = 1 then .One
    else if mod10 ≥ 2 ∧ mod10 ≤ 4 ∧ (mod100 < 12 ∨ mod100 > 14) then .Few
    else if (op.i ≠ 1 ∧ (mod10 = 0 ∨ mod10 = 1)) ∨ (mod10 ≥ 5 ∧ mod10 ≤ 9) ∨
        (mod100 ≥ 12 ∧ mod100 ≤ 14) then .Many
    else .Other
  else .Other

/-- Japanese (and Chinese, Korean): no plural forms. -/
def ja (_op : operands) : category := .Other

def zh := ja

def ko := ja

end Rules

/-- `getRuleForLocale`: dispatch on the lowercased bare language. -/
def getRuleForLocale (locale : String) : Option (operands → category) :=
  let lang := jsToLower (((jsSplit '-' locale).get? 0).getD locale)
  match lang with
  | "en" => some Rules.en
  | "de" => some Rules.de
  | "fr" => some Rules.fr
  | "ru" => some Rules.ru
  | "ar" => some Rules.ar
  | "pl" => some Rules.pl
  | "ja" => some Rules.ja
  | "zh" => some Rules.zh
  | "ko" => some Rules.ko
  | _ => none

/-- The shape of the external `evaluate_plural` WASM export: a number and
a locale string to a category wire name. -/
abbrev wasmModuleT := Rat → String → String

/-- `Wasm.evaluateCategory`, generalized over the optional module the
`@module("./plural_engine.wasm")` import resolves to. -/
def evaluateCategoryWith (m : Option wasmModuleT) (n : Rat) (locale : String) :
    Option category :=
  m.bind fun wasm => categoryFromString (wasm n locale)

/-- `select`, generalized over the optional WASM module: consult the
accelerated evaluator first, fall back to the pure table, default `Other`. -/
def selectWith (m : Option wasmModuleT) (n : Rat) (locale : String) : category :=
  match evaluateCategoryWith m n locale with
  | some cat => cat
  | none =>
    match getRuleForLocale locale with
    | some rule => rule (getOperands n)
    | none => .Other

/-- `Wasm.wasmModule`: the optional `./plural_engine.wasm` import.  The
repository ships no such artifact (`wasm/` holds only the build script and
the project notes record that the engine has no JS bridge), so the optional
module is absent. -/
def wasmModule : Option wasmModuleT := none

/-- `Plural.select`. -/
def select (n : Rat) (locale : String) : category :=
  selectWith wasmModule n locale

/-- `Plural.selectForLocale`. -/
def selectForLocale (n : Rat) (locale : Locale.t) : category :=
  select n (Locale.toString locale)

end Plural

/-! ## Translation engine (`I18n.res`) -/

namespace I18n

/-- `I18n.config`. -/
structure config where
  locales : List Locale.t
  defaultLocale : Locale.t
  fallbacks : List (String × Locale.t)
  objectNotationFlag : Bool
  missingKeyHandler : Option (Locale.t → String → String)

/-- `I18n.t`. -/
structure t where
  config : config
  catalogs : List (String × Catalog.t)
  currentLocale : Locale.t

namespace Config

/-- `Config.builder` (its mutability is only builder-pattern sugar; `build`
reads the final field values). -/
structure builder where
  locales : List String
  defaultLocale : Option String
  fallbacks : List (String × String)
  objectNotationFlag : Bool
  missingKeyHandler : Option (Locale.t → String → String)

/-- `Config.make`. -/
def make : builder :=
  { locales := []
    defaultLocale := none
    fallbacks := []
    objectNotationFlag := false
    missingKeyHandler := none }

/-- `Config.withLocales`. -/
def withLocales (b : builder) (locales : List String) : builder :=
  { b with locales }

/-- `Config.withDefaultLocale`. -/
def withDefaultLocale (b : builder) (locale : String) : builder :=
  { b with defaultLocale := some locale }

/-- `Config.withFallback`. -/
def withFallback (b : builder) (frm tgt : String) : builder :=
  { b with fallbacks := b.fallbacks ++ [(frm, tgt)] }

/-- `Config.build`: keep the parseable locale tags; fail when none parses or
when an explicitly given default locale does not parse; fallback pairs whose ends both
parse populate the fallback map, other pairs are dropped. -/
def build (b : builder) : Except String config :=
  let locales := b.locales.filterMap Locale.fromString
  if locales.length = 0 then
    .error "At least one valid locale is required"
  else
    let defaultLocale := match b.defaultLocale with
      | some s => Locale.fromString s
      | none => locales.get? 0
    match defaultLocale with
    | none => .error "Invalid default locale"
    | some defaultLocale =>
      let fallbacks := b.fallbacks.foldl (fun acc p =>
        match Locale.fromString p.1, Locale.fromString p.2 with
        | some f, some tgt => BeltMap.set acc (Locale.toString f) tgt
        | _, _ => acc) []
      .ok { locales
            defaultLocale
            fallbacks
            objectNotationFlag := b.objectNotationFlag
            missingKeyHandler := b.missingKeyHandler }

end Config

/-- `I18n.make`: one empty catalog per configured locale. -/
def make (config : config) : t :=
  let catalogs := config.locales.foldl (fun acc locale =>
    BeltMap.set acc (Locale.toString locale) (Catalog.empty locale)) []
  { config, catalogs, currentLocale := config.defaultLocale }

/-- `I18n.fromBuilder`. -/
def fromBuilder (b : Config.builder) : Except String t :=
  (Config.build b).map make

/-- `I18n.getLocale`. -/
def getLocale (i18n : t) : Locale.t := i18n.currentLocale

/-- `I18n.setLocale`: adopt a configured locale; otherwise consult the
fallback map, then the default locale. -/
def setLocale (i18n : t) (locale : Locale.t) : t :=
  let resolvedLocale :=
    if i18n.config.locales.any (fun l => Locale.eq l locale) then locale
    else
      match BeltMap.get i18n.config.fallbacks (Locale.toString locale) with
      | some fallback => fallback
      | none => i18n.config.defaultLocale
  { i18n with currentLocale := resolvedLocale }

/-- `I18n.setLocaleString`. -/
def setLocaleString (i18n : t) (locale : String) : t :=
  match Locale.fromString locale with
  | some l => setLocale i18n l
  | none => i18n

/-- `I18n.loadTranslations`. -/
def loadTranslations (i18n : t) (locale : Locale.t) (json : Json) :
    Except String t :=
  (Catalog.fromJson locale json).map fun catalog =>
    let key := Locale.toString locale
    let existingCatalog := (BeltMap.get i18n.catalogs key).getD (Catalog.empty locale)
    let mergedCatalog := Catalog.merge existingCatalog catalog
    { i18n with catalogs := BeltMap.set i18n.catalogs key mergedCatalog }

/-- The per-locale lookup step of `translate` (`tryLocale`): that locale's
catalog, then `getString`. -/
def tryLocale (i18n : t) (key : String) (locale : Locale.t) : Option String :=
  (BeltMap.get i18n.catalogs (Locale.toString locale)).bind
    fun catalog => Catalog.getString catalog key

/-- `I18n.translate`: current locale, its configured fallback if any, then
the default locale (appended only when not already in the chain); a miss
along the whole chain goes to the missing-key handler when configured,
else echoes the key. -/
def translate (i18n : t) (key : String) : String :=
  let locale := i18n.currentLocale
  let localeChain :=
    match BeltMap.get i18n.config.fallbacks (Locale.toString locale) with
    | some fallback => [locale] ++ [fallback]
    | none => [locale]
  let chain :=
    if ! localeChain.any (fun l => Locale.eq l i18n.config.defaultLocale) then
      localeChain ++ [i18n.config.defaultLocale]
    else localeChain
  let result := chain.foldl (fun acc currentLocale =>
    match acc with
    | some _ => acc
    | none => tryLocale i18n key currentLocale) none
  match result with
  | some translation => translation
  | none =>
    match i18n.config.missingKeyHandler with
    | some handler => handler locale key
    | none => key

/-- The non-global `/%[sd]/` replacement at the end of `translatePlural`:
replace the first `%s` or `%d` with the replacement characters. -/
def replacePercentAux (repl : List Char) : List Char → List Char
  | [] => []
  | '%' :: c :: rest =>
    if c = 's' ∨ c = 'd' then repl ++ rest
    else '%' :: replacePercentAux repl (c :: rest)
  | c :: rest => c :: replacePercentAux repl rest

/-- `template->String.replaceRegExp(%re("/%[sd]/"), repl)`. -/
def replaceFirstPercentSD (template repl : String) : String :=
  String.mk (replacePercentAux repl.toList template.toList)

/-- `I18n.translatePlural`: select the category for (count, currentLocale);
project a catalog `Plural` entry by category with "other" as default, pass
a `Simple` entry through, otherwise fall back to the literal
singular/plural keyed on One-vs-not-One; substitute the count into the
first placeholder. -/
def translatePlural (i18n : t) (singular plural : String) (count : Rat) :
    String :=
  let locale := i18n.currentLocale
  let category := Plural.selectForLocale count locale
  let catalogResult := (BeltMap.get i18n.catalogs (Locale.toString locale)).bind
    fun catalog => Catalog.get catalog singular
  let template := match catalogResult with
    | some (.Plural pf) =>
      match category with
      | .Zero => pf.zero.getD pf.other
      | .One => pf.one.getD pf.other
      | .Two => pf.two.getD pf.other
      | .Few => pf.few.getD pf.other
      | .Many => pf.many.getD pf.other
      | .Other => pf.other
    | some (.Simple s) => s
    | _ =>
      match category with
      | .One => singular
      | _ => plural
  replaceFirstPercentSD template (ratToString count)

/-- `I18n.getLocales`. -/
def getLocales (i18n : t) : List Locale.t := i18n.config.locales

/-- `I18n.getDefaultLocale`. -/
def getDefaultLocale (i18n : t) : Locale.t := i18n.config.defaultLocale

end I18n

/-! ## Relative-time formatter (`RelativeTime.res`) -/

namespace RelativeTime

/-- Time units. -/
inductive unit where
  | Second
  | Minute
  | Hour
  | Day
  | Week
  | Month
  | Year
deriving DecidableEq

/-- Formatting style. -/
inductive style where
  | Long
  | Short
  | Narrow
deriving DecidableEq

/-- Numeric display option. -/
inductive numeric where
  | Always
  | Auto
deriving DecidableEq

/-- `RelativeTime.config`. -/
structure config where
  style : style
  numeric : numeric
  locale : Locale.t

/-- `defaultConfig`. -/
def defaultConfig (locale : Locale.t) : config :=
  { style := .Long, numeric := .Auto, locale }

/-- `unitInfo`. -/
structure unitInfo where
  unit : unit
  seconds : Rat
  threshold : Rat

/-- The `units` table (thresholds are the literal `0.5`). -/
def units : List unitInfo :=
  [ { unit := .Year, seconds := 31536000, threshold := Rat.divInt 1 2 }
  , { unit := .Month, seconds := 2628000, threshold := Rat.divInt 1 2 }
  , { unit := .Week, seconds := 604800, threshold := Rat.divInt 1 2 }
  , { unit := .Day, seconds := 86400, threshold := Rat.divInt 1 2 }
  , { unit := .Hour, seconds := 3600, threshold := Rat.divInt 1 2 }
  , { unit := .Minute, seconds := 60, threshold := Rat.divInt 1 2 }
  , { unit := .Second, seconds := 1, threshold := Rat.divInt 1 2 } ]

/-- The inner `findUnit` of `selectUnit`. -/
def findUnit (absDiff diffSeconds : Rat) : List unitInfo → unit × Rat
  | [] => (.Second, diffSeconds)
  | info :: rest =>
    if ratDivQ absDiff info.seconds ≥ info.threshold then
      (info.unit, ratDivQ diffSeconds info.seconds)
    else findUnit absDiff diffSeconds rest

/-- `selectUnit`: first unit whose scaled magnitude meets its threshold. -/
def selectUnit (diffSeconds : Rat) : unit × Rat :=
  findUnit (jsAbs diffSeconds) diffSeconds units

namespace UnitNames

/-- Per-style unit name strings. -/
structure unitStrings where
  singular : String
  plural : String
  shortSingular : String
  shortPlural : String
  narrow : String

/-- English unit names. -/
def getEnglish (u : unit) : unitStrings :=
  match u with
  | .Second => { singular := "second", plural := "seconds", shortSingular := "sec", shortPlural := "sec", narrow := "s" }
  | .Minute => { singular := "minute", plural := "minutes", shortSingular := "min", shortPlural := "min", narrow := "m" }
  | .Hour => { singular := "hour", plural := "hours", shortSingular := "hr", shortPlural := "hr", narrow := "h" }
  | .Day => { singular := "day", plural := "days", shortSingular := "day", shortPlural := "days", narrow := "d" }
  | .Week => { singular := "week", plural := "weeks", shortSingular := "wk", shortPlural := "wks", narrow := "w" }
  | .Month => { singular := "month", plural := "months", shortSingular := "mo", shortPlural := "mos", narrow := "mo" }
  | .Year => { singular := "year", plural := "years", shortSingular := "yr", shortPlural := "yrs", narrow := "y" }

/-- German unit names (the `Day` plural entry is the literal "Tage"). -/
def getGerman (u : unit) : unitStrings :=
  match u with
  | .Second => { singular := "Sekunde", plural := "Sekunden", shortSingular := "Sek.", shortPlural := "Sek.", narrow := "s" }
  | .Minute => { singular := "Minute", plural := "Minuten", shortSingular := "Min.", shortPlural := "Min.", narrow := "m" }
  | .Hour => { singular := "Stunde", plural := "Stunden", shortSingular := "Std.", shortPlural := "Std.", narrow := "h" }
  | .Day => { singular := "Tag", plural := "Tage", shortSingular := "Tag", shortPlural := "Tage", narrow := "T" }
  | .Week => { singular := "Woche", plural := "Wochen", shortSingular := "Wo.", shortPlural := "Wo.", narrow := "W" }
  | .Month => { singular := "Monat", plural := "Monate", shortSingular := "Mon.", shortPlural := "Mon.", narrow := "M" }
  | .Year => { singular := "Jahr", plural := "Jahre", shortSingular := "J.", shortPlural := "J.", narrow := "J" }

/-- French unit names. -/
def getFrench (u : unit) : unitStrings :=
  match u with
  | .Second => { singular := "seconde", plural := "secondes", shortSingular := "s", shortPlural := "s", narrow := "s" }
  | .Minute => { singular := "minute", plural := "minutes", shortSingular := "min", shortPlural := "min", narrow := "m" }
  | .Hour => { singular := "heure", plural := "heures", shortSingular := "h", shortPlural := "h", narrow := "h" }
  | .Day => { singular := "jour", plural := "jours", shortSingular := "j", shortPlural := "j", narrow := "j" }
  | .Week => { singular := "semaine", plural := "semaines", shortSingular := "sem.", shortPlural := "sem.", narrow := "sem" }
  | .Month => { singular := "mois", plural := "mois", shortSingular := "m.", shortPlural := "m.", narrow := "m" }
  | .Year => { singular := "an", plural := "ans", shortSingular := "a", shortPlural := "a", narrow := "a" }

/-- Spanish unit names. -/
def getSpanish (u : unit) : unitStrings :=
  match u with
  | .Second => { singular := "segundo", plural := "segundos", shortSingular := "s", shortPlural := "s", narrow := "s" }
  | .Minute => { singular := "minuto", plural := "minutos", shortSingular := "min", shortPlural := "min", narrow := "m" }
  | .Hour => { singular := "hora", plural := "horas", shortSingular := "h", shortPlural := "h", narrow := "h" }
  | .Day => { singular := "día", plural := "días", shortSingular := "d", shortPlural := "d", narrow := "d" }
  | .Week => { singular := "semana", plural := "semanas", shortSingular := "sem.", shortPlural := "sem.", narrow := "sem" }
  | .Month => { singular := "mes", plural := "meses", shortSingular := "m.", shortPlural := "m.", narrow := "m" }
  | .Year => { singular := "año", plural := "años", shortSingular := "a", shortPlural := "a", narrow := "a" }

/-- Russian unit names. -/
def getRussian (u : unit) : unitStrings :=
  match u with
  | .Second => { singular := "секунда", plural := "секунд", shortSingular := "сек.", shortPlural := "сек.", narrow := "с" }
  | .Minute => { singular := "минута", plural := "минут", shortSingular := "мин.", shortPlural := "мин.", narrow := "м" }
  | .Hour => { singular := "час", plural := "часов", shortSingular := "ч.", shortPlural := "ч.", narrow := "ч" }
  | .Day => { singular := "день", plural := "дней", shortSingular := "дн.", shortPlural := "дн.", narrow := "д" }
  | .Week => { singular := "неделя", plural := "недель", shortSingular := "нед.", shortPlural := "нед.", narrow := "н" }
  | .Month => { singular := "месяц", plural := "месяцев", shortSingular := "мес.", shortPlural := "мес.", narrow := "м" }
  | .Year => { singular := "год", plural := "лет", shortSingular := "г.", shortPlural := "л.", narrow := "г" }

/-- Japanese unit names. -/
def getJapanese (u : unit) : unitStrings :=
  match u with
  | .Second => { singular := "秒", plural := "秒", shortSingular := "秒", shortPlural := "秒", narrow := "秒" }
  | .Minute => { singular := "分", plural := "分", shortSingular := "分", shortPlural := "分", narrow := "分" }
  | .Hour => { singular := "時間", plural := "時間", shortSingular := "時間", shortPlural := "時間", narrow := "時" }
  | .Day => { singular := "日", plural := "日", shortSingular := "日", shortPlural := "日", narrow := "日" }
  | .Week => { singular := "週間", plural := "週間", shortSingular := "週", shortPlural := "週", narrow := "週" }
  | .Month => { singular := "か月", plural := "か月", shortSingular := "か月", shortPlural := "か月", narrow := "月" }
  | .Year => { singular := "年", plural := "年", shortSingular := "年", shortPlural := "年", narrow := "年" }

/-- Chinese unit names. -/
def getChinese (u : unit) : unitStrings :=
  match u with
  | .Second => { singular := "秒", plural := "秒", shortSingular := "秒", shortPlural := "秒", narrow := "秒" }
  | .Minute => { singular := "分钟", plural := "分钟", shortSingular := "分钟", shortPlural := "分钟", narrow := "分" }
  | .Hour => { singular := "小时", plural := "小时", shortSingular := "小时", shortPlural := "小时", narrow := "时" }
  | .Day => { singular := "天", plural := "天", shortSingular := "天", shortPlural := "天", narrow := "天" }
  | .Week => { singular := "周", plural := "周", shortSingular := "周", shortPlural := "周", narrow := "周" }
  | .Month => { singular := "个月", plural := "个月", shortSingular := "个月", shortPlural := "个月", narrow := "月" }
  | .Year => { singular := "年", plural := "年", shortSingular := "年", shortPlural := "年", narrow := "年" }

/-- Arabic unit names. -/
def getArabic (u : unit) : unitStrings :=
  match u with
  | .Second => { singular := "ثانية", plural := "ثوانٍ", shortSingular := "ث", shortPlural := "ث", narrow := "ث" }
  | .Minute => { singular := "دقيقة", plural := "دقائق", shortSingular := "د", shortPlural := "د", narrow := "د" }
  | .Hour => { singular := "ساعة", plural := "ساعات", shortSingular := "س", shortPlural := "س", narrow := "س" }
  | .Day => { singular := "يوم", plural := "أيام", shortSingular := "ي", shortPlural := "ي", narrow := "ي" }
  | .Week => { singular := "أسبوع", plural := "أسابيع", shortSingular := "أس", shortPlural := "أس", narrow := "أس" }
  | .Month => { singular := "شهر", plural := "أشهر", shortSingular := "ش", shortPlural := "ش", narrow := "ش" }
  | .Year => { singular := "سنة", plural := "سنوات", shortSingular := "سن", shortPlural := "سن", narrow := "سن" }

/-- `UnitNames.forLocale`: dispatch on the bare language, English default. -/
def forLocale (locale : Locale.t) (u : unit) : unitStrings :=
  match Locale.language locale with
  | "de" => getGerman u
  | "fr" => getFrench u
  | "es" => getSpanish u
  | "ru" => getRussian u
  | "ja" => getJapanese u
  | "zh" => getChinese u
  | "ar" => getArabic u
  | _ => getEnglish u

end UnitNames

namespace SpecialNames

/-- Special named time references. -/
structure names where
  now : String
  yesterday : String
  tomorrow : String
  lastWeek : String
  nextWeek : String
  lastMonth : String
  nextMonth : String
  lastYear : String
  nextYear : String
  ago : String
  inFuture : String

/-- English special names. -/
def english : names :=
  { now := "just now", yesterday := "yesterday", tomorrow := "tomorrow"
    lastWeek := "last week", nextWeek := "next week"
    lastMonth := "last month", nextMonth := "next month"
    lastYear := "last year", nextYear := "next year"
    ago := "ago", inFuture := "in" }

/-- German special names. -/
def german : names :=
  { now := "gerade eben", yesterday := "gestern", tomorrow := "morgen"
    lastWeek := "letzte Woche", nextWeek := "nächste Woche"
    lastMonth := "letzten Monat", nextMonth := "nächsten Monat"
    lastYear := "letztes Jahr", nextYear := "nächstes Jahr"
    ago := "vor", inFuture := "in" }

/-- French special names. -/
def french : names :=
  { now := "à l'instant", yesterday := "hier", tomorrow := "demain"
    lastWeek := "la semaine dernière", nextWeek := "la semaine prochaine"
    lastMonth := "le mois dernier", nextMonth := "le mois prochain"
    lastYear := "l'année dernière", nextYear := "l'année prochaine"
    ago := "il y a", inFuture := "dans" }

/-- Spanish special names. -/
def spanish : names :=
  { now := "ahora mismo", yesterday := "ayer", tomorrow := "mañana"
    lastWeek := "la semana pasada", nextWeek := "la próxima semana"
    lastMonth := "el mes pasado", nextMonth := "el próximo mes"
    lastYear := "el año pasado", nextYear := "el próximo año"
    ago := "hace", inFuture := "en" }

/-- Russian special names. -/
def russian : names :=
  { now := "только что", yesterday := "вчера", tomorrow := "завтра"
    lastWeek := "на прошлой неделе", nextWeek := "на следующей неделе"
    lastMonth := "в прошлом месяце", nextMonth := "в следующем месяце"
    lastYear := "в прошлом году", nextYear := "в следующем году"
    ago := "назад", inFuture := "через" }

/-- Japanese special names. -/
def japanese : names :=
  { now := "たった今", yesterday := "昨日", tomorrow := "明日"
    lastWeek := "先週", nextWeek := "来週"
    lastMonth := "先月", nextMonth := "来月"
    lastYear := "去年", nextYear := "来年"
    ago := "前", inFuture := "後" }

/-- Chinese special names. -/
def chinese : names :=
  { now := "刚刚", yesterday := "昨天", tomorrow := "明天"
    lastWeek := "上周", nextWeek := "下周"
    lastMonth := "上个月", nextMonth := "下个月"
    lastYear := "去年", nextYear := "明年"
    ago := "前", inFuture := "后" }

/-- Arabic special names. -/
def arabic : names :=
  { now := "الآن", yesterday := "أمس", tomorrow := "غداً"
    lastWeek := "الأسبوع الماضي", nextWeek := "الأسبوع القادم"
    lastMonth := "الشهر الماضي", nextMonth := "الشهر القادم"
    lastYear := "العام الماضي", nextYear := "العام القادم"
    ago := "منذ", inFuture := "خلال" }

/-- `SpecialNames.forLocale`. -/
def forLocale (locale : Locale.t) : names :=
  match Locale.language locale with
  | "de" => german
  | "fr" => french
  | "es" => spanish
  | "ru" => russian
  | "ja" => japanese
  | "zh" => chinese
  | "ar" => arabic
  | _ => english

end SpecialNames

/-- `getUnitName`: singular-vs-plural via the plural category of the
rounded magnitude; Narrow ignores pluralization. -/
def getUnitName (locale : Locale.t) (u : unit) (value : Rat) (style : style) :
    String :=
  let names := UnitNames.forLocale locale u
  let category := Plural.selectForLocale value locale
  match style with
  | .Long => match category with
    | .One => names.singular
    | _ => names.plural
  | .Short => match category with
    | .One => names.shortSingular
    | _ => names.shortPlural
  | .Narrow => names.narrow

/-- `formatRelative`: Auto numeric mode special-cases small second deltas
and exact single-unit day/week/month/year deltas; otherwise assemble
direction, value and unit with per-language word order. -/
def formatRelative (config : config) (value : Rat) (u : unit) : String :=
  let absValue := jsAbs value
  let roundedValue := jsRound absValue
  let isPast := value < 0
  let names := SpecialNames.forLocale config.locale
  let lang := Locale.language config.locale
  let special : Option String :=
    if config.numeric = .Auto then
      if absValue < 10 ∧ u = .Second then some names.now
      else if u = .Day ∧ roundedValue = 1 then
        some (if isPast then names.yesterday else names.tomorrow)
      else if u = .Week ∧ roundedValue = 1 then
        some (if isPast then names.lastWeek else names.nextWeek)
      else if u = .Month ∧ roundedValue = 1 then
        some (if isPast then names.lastMonth else names.nextMonth)
      else if u = .Year ∧ roundedValue = 1 then
        some (if isPast then names.lastYear else names.nextYear)
      else none
    else none
  match special with
  | some s => s
  | none =>
    let unitName := getUnitName config.locale u roundedValue config.style
    let valueStr := ratToString roundedValue
    match lang with
    | "ja" | "zh" | "ko" =>
      if isPast then valueStr ++ unitName ++ names.ago
      else valueStr ++ unitName ++ names.inFuture
    | "de" =>
      if isPast then names.ago ++ " " ++ valueStr ++ " " ++ unitName
      else names.inFuture ++ " " ++ valueStr ++ " " ++ unitName
    | "fr" | "es" =>
      if isPast then names.ago ++ " " ++ valueStr ++ " " ++ unitName
      else names.inFuture ++ " " ++ valueStr ++ " " ++ unitName
    | "ru" =>
      if isPast then valueStr ++ " " ++ unitName ++ " " ++ names.ago
      else names.inFuture ++ " " ++ valueStr ++ " " ++ unitName
    | "ar" =>
      if isPast then names.ago ++ " " ++ valueStr ++ " " ++ unitName
      else names.inFuture ++ " " ++ valueStr ++ " " ++ unitName
    | _ =>
      if isPast then valueStr ++ " " ++ unitName ++ " " ++ names.ago
      else names.inFuture ++ " " ++ valueStr ++ " " ++ unitName

/-- `RelativeTime.format`: `selectUnit` then `formatRelative`. -/
def format (config : config) (diffSeconds : Rat) : String :=
  let p := selectUnit diffSeconds
  formatRelative config p.2 p.1

/-- `formatUnit`. -/
def formatUnit (config : config) (value : Rat) (u : unit) : String :=
  formatRelative config value u

/-- `RelativeTime.make`. -/
def make (locale : Locale.t) : config := defaultConfig locale

end RelativeTime

/-! ## Concrete fixtures used by witnesses and counterexamples -/

/-- The English locale, `Locale.fromString "en"`. -/
def enLocale : Locale.t :=
  { tag := { language := "en", script := none, region := none, variants := [] }
    raw := "en" }

/-- The German locale, `Locale.fromString "de"`. -/
def deLocale : Locale.t :=
  { tag := { language := "de", script := none, region := none, variants := [] }
    raw := "de" }

/-- The French locale, `Locale.fromString "fr"`. -/
def frLocale : Locale.t :=
  { tag := { language := "fr", script := none, region := none, variants := [] }
    raw := "fr" }

/-- The (valid, unconfigured in the fixtures) locale "xx". -/
def xxLocale : Locale.t :=
  { tag := { language := "xx", script := none, region := none, variants := [] }
    raw := "xx" }

/-- `Locale.fromString "en-US"`. -/
def enUSLocale : Locale.t :=
  { tag := { language := "en", script := none, region := some "US", variants := [] }
    raw := "en-US" }

/-- An English-only configuration without a missing-key handler. -/
def enConfig : I18n.config :=
  { locales := [enLocale]
    defaultLocale := enLocale
    fallbacks := []
    objectNotationFlag := false
    missingKeyHandler := none }

/-- The engine `I18n.make enConfig`. -/
def enEngine : I18n.t := I18n.make enConfig

/-- A configuration whose fallback map sends "fr" to the configured German
locale (targets configured, default configured). -/
def fbConfig : I18n.config :=
  { locales := [deLocale, enLocale]
    defaultLocale := enLocale
    fallbacks := [("fr", deLocale)]
    objectNotationFlag := false
    missingKeyHandler := none }

/-- The engine `I18n.make fbConfig`. -/
def fbEngine : I18n.t := I18n.make fbConfig

/-- Whether a locale is one of the configured locales (by `Locale.eq`). -/
def I18n.isConfigured (cfg : I18n.config) (locale : Locale.t) : Bool :=
  cfg.locales.any (fun l => Locale.eq l locale)

/-- The category projection of a `Plural` catalog entry, each optional form
defaulting to the mandatory "other" form. -/
def pluralProject (pf : Catalog.pluralForms) (cat : Plural.category) : String :=
  match cat with
  | .Zero => pf.zero.getD pf.other
  | .One => pf.one.getD pf.other
  | .Two => pf.two.getD pf.other
  | .Few => pf.few.getD pf.other
  | .Many => pf.many.getD pf.other
  | .Other => pf.other

/-- `BeltMap.get` on a one-entry map. -/
theorem BeltMap.get_singleton {α : Type} (k0 : String) (v0 : α) (k : String) :
    BeltMap.get [(k0, v0)] k = if (k0 == k) = true then some v0 else none := by
  cases h : (k0 == k) <;> simp [BeltMap.get, List.find?_cons, h]

/-- `categoryFromString` undoes `categoryToString`. -/
theorem Plural.categoryFromString_toString (cat : Plural.category) :
    Plural.categoryFromString (Plural.categoryToString cat) = some cat := by
  cases cat <;> rfl

/-! ## C10 -/

/-- C10: for every engine and every string that fails the locale grammar,
`setLocaleString` returns the engine unchanged and surfaces no error. -/
theorem setLocaleString_invalid_noop (i18n : I18n.t) (s : String)
    (h : Locale.fromString s = none) : I18n.setLocaleString i18n s = i18n := by
  unfold I18n.setLocaleString
  rw [h]

/-- Witness for C10 at the engine `enEngine` and the malformed tag "123". -/
theorem setLocaleString_invalid_noop_witness :
    Locale.fromString "123" = none ∧ I18n.setLocaleString enEngine "123" = enEngine :=
  ⟨by decide, setLocaleString_invalid_noop enEngine "123" (by decide)⟩

/-! ## C5 -/

/-- C5: the English Auto-mode examples hold ("yesterday", "tomorrow",
"just now", "3 days ago"), but German `format(-259200)` is "vor 3 Tage":
the unit-name table's plural entry for `Day` is "Tage", although the
claim (and the comment in `formatRelative` itself) says "vor 3 Tagen". -/
theorem relative_format_examples :
    RelativeTime.format (RelativeTime.defaultConfig enLocale) (-86400) = "yesterday" ∧
    RelativeTime.format (RelativeTime.defaultConfig enLocale) 86400 = "tomorrow" ∧
    RelativeTime.format (RelativeTime.defaultConfig enLocale) (-5) = "just now" ∧
    RelativeTime.format (RelativeTime.defaultConfig enLocale) (-259200) = "3 days ago" ∧
    RelativeTime.format (RelativeTime.defaultConfig deLocale) (-259200) = "vor 3 Tage" ∧
    "vor 3 Tage" ≠ "vor 3 Tagen" := by
  refine ⟨by decide, by decide, by decide, by decide, by decide, by decide⟩

/-! ## C8 -/

/-- Modelled from the spec: the accelerated WASM plural evaluator
(`plural_engine.wasm`, produced from Rust sources that are not in the
repository; only the optional import binding is).  Per the spec it must
return the same category as the pure rule table for every locale both
implement; it is therefore modelled as evaluating the pure rules on the
locales the pure table implements (and the pure default elsewhere). -/
def pluralEngineWasm : Plural.wasmModuleT := fun n locale =>
  Plural.categoryToString
    (match Plural.getRuleForLocale locale with
     | some rule => rule (Plural.getOperands n)
     | none => .Other)

/-- C8: with the accelerated evaluator present, `select` returns the same
category as with it absent (the pure table) for every number and locale;
with it absent, a locale with no pure rule yields `Other`; and the shipped
`select` is exactly the absent case (no wasm artifact in the repository). -/
theorem plural_select_acceleration :
    (∀ (n : Rat) (locale : String),
      Plural.selectWith (some pluralEngineWasm) n locale =
        Plural.selectWith none n locale) ∧
    (∀ (n : Rat) (locale : String), Plural.getRuleForLocale locale = none →
      Plural.selectWith none n locale = Plural.category.Other) ∧
    Plural.select = Plural.selectWith none := by
  refine ⟨?_, ?_, rfl⟩
  · intro n locale
    cases hr : Plural.getRuleForLocale locale with
    | some rule =>
      simp [Plural.selectWith, Plural.evaluateCategoryWith, pluralEngineWasm, hr,
        Plural.categoryFromString_toString]
    | none =>
      simp [Plural.selectWith, Plural.evaluateCategoryWith, pluralEngineWasm, hr,
        Plural.categoryFromString_toString]
  · intro n locale h
    simp [Plural.selectWith, Plural.evaluateCategoryWith, h]

/-- Witness for C8 at concrete inputs (English, and the unknown
language "qq"). -/
theorem plural_select_acceleration_witness :
    Plural.selectWith (some pluralEngineWasm) 5 "en" =
      Plural.selectWith none 5 "en" ∧
    Plural.selectWith none 5 "qq" = Plural.category.Other :=
  ⟨plural_select_acceleration.1 5 "en",
   plural_select_acceleration.2.1 5 "qq" rfl⟩

/-! ## C9 -/

/-- C9 (amended): `Config.build` keeps exactly the parseable locale tags in
their original order, and fails exactly when no supplied tag parses or when
an explicitly supplied default locale fails to parse. -/
theorem config_build_drops_invalid (b : I18n.Config.builder) :
    match I18n.Config.build b with
    | .ok cfg => cfg.locales = b.locales.filterMap Locale.fromString
    | .error _ =>
        b.locales.filterMap Locale.fromString = [] ∨
        ∃ s, b.defaultLocale = some s ∧ Locale.fromString s = none := by
  unfold I18n.Config.build
  by_cases h0 : (b.locales.filterMap Locale.fromString).length = 0
  · simp only [if_pos h0]
    exact Or.inl (List.length_eq_zero.mp h0)
  · simp only [if_neg h0]
    cases hd : b.defaultLocale with
    | none =>
      cases hl : b.locales.filterMap Locale.fromString with
      | nil => exact absurd (by rw [hl]; rfl) h0
      | cons x xs => simp [hl]
    | some s =>
      cases hfs : Locale.fromString s with
      | none => simp [hfs]
      | some d => simp [hfs]

/-- A builder with one parseable locale tag and an unparseable explicit
default locale. -/
def invalidDefaultBuilder : I18n.Config.builder :=
  { locales := ["en"]
    defaultLocale := some "123"
    fallbacks := []
    objectNotationFlag := false
    missingKeyHandler := none }

/-- Counterexample to C9 as stated: `build` errors although a supplied
locale tag ("en") parses, because the explicit default "123" does not. -/
theorem config_build_invalid_default_cex :
    I18n.Config.build invalidDefaultBuilder = .error "Invalid default locale" ∧
    (Locale.fromString "en").isSome = true :=
  ⟨rfl, by decide⟩

/-! ## C2 -/

/-- C2 (amended): `setLocale` resolves to the argument when configured,
else to the fallback-map target, else to the default locale; the result is
a configured locale provided every fallback-map target and the default
locale are themselves configured (which `Config.build` does not enforce,
see the counterexample). -/
theorem setLocale_resolution (i18n : I18n.t) (locale : Locale.t)
    (hfb : ∀ k v, BeltMap.get i18n.config.fallbacks k = some v →
      I18n.isConfigured i18n.config v = true)
    (hdef : I18n.isConfigured i18n.config i18n.config.defaultLocale = true) :
    (I18n.setLocale i18n locale).currentLocale =
      (if I18n.isConfigured i18n.config locale = true then locale
       else match BeltMap.get i18n.config.fallbacks (Locale.toString locale) with
            | some fallback => fallback
            | none => i18n.config.defaultLocale) ∧
    I18n.isConfigured i18n.config (I18n.setLocale i18n locale).currentLocale = true := by
  have hcur : (I18n.setLocale i18n locale).currentLocale =
      (if I18n.isConfigured i18n.config locale = true then locale
       else match BeltMap.get i18n.config.fallbacks (Locale.toString locale) with
            | some fallback => fallback
            | none => i18n.config.defaultLocale) := rfl
  refine ⟨hcur, ?_⟩
  rw [hcur]
  by_cases hc : I18n.isConfigured i18n.config locale = true
  · simp [hc]
  · simp only [if_neg hc]
    cases hget : BeltMap.get i18n.config.fallbacks (Locale.toString locale) with
    | some fb => exact hfb _ _ hget
    | none => exact hdef

/-- Witness for C2: the engine `fbEngine` (fallback "fr" to the configured
German locale) resolves the unconfigured French locale to a configured
one. -/
theorem setLocale_resolution_witness :
    ((I18n.setLocale fbEngine frLocale).currentLocale =
      (if I18n.isConfigured fbEngine.config frLocale = true then frLocale
       else match BeltMap.get fbEngine.config.fallbacks (Locale.toString frLocale) with
            | some fallback => fallback
            | none => fbEngine.config.defaultLocale) ∧
     I18n.isConfigured fbEngine.config (I18n.setLocale fbEngine frLocale).currentLocale = true) :=
  setLocale_resolution fbEngine frLocale
    (by
      intro k v h
      rw [show fbEngine.config.fallbacks = [("fr", deLocale)] from rfl,
        BeltMap.get_singleton] at h
      by_cases hk : ("fr" == k) = true
      · rw [if_pos hk] at h
        cases h
        decide
      · rw [if_neg hk] at h
        cases h)
    (by decide)

/-- A builder whose fallback map sends "xx" to "fr", with "fr" not among
the configured locales; `build` accepts it unchecked. -/
def strayFallbackBuilder : I18n.Config.builder :=
  { locales := ["en"]
    defaultLocale := none
    fallbacks := [("xx", "fr")]
    objectNotationFlag := false
    missingKeyHandler := none }

/-- Counterexample to C2 as stated: on the engine built from
`strayFallbackBuilder`, `setLocale` to "xx" lands on "fr", which is not
among the configured locales (exactly ["en"]). -/
theorem setLocale_unconfigured_fallback_cex :
    (I18n.Config.build strayFallbackBuilder).map (fun cfg =>
       ((I18n.setLocale (I18n.make cfg) xxLocale).currentLocale.raw,
        cfg.locales.map Locale.toString)) = .ok ("fr", ["en"]) ∧
    ¬ ("fr" ∈ (["en"] : List String)) :=
  ⟨rfl, by decide⟩

/-! ## C3 -/

/-- C3 (amended): `translatePlural` projects a catalog `Plural` entry under
the singular key by the CLDR category of (count, currentLocale) with
"other" as the default; a `Simple` entry under the singular key is used
as-is (this case the claim omits); otherwise the literal singular key
serves category One and the literal plural key every other category; the
count replaces the first `%s`/`%d`.  In English the examples
"1 cat"/"3 cats" hold. -/
theorem translatePlural_selection :
    (∀ (i18n : I18n.t) (sg pl : String) (count : Rat),
      I18n.translatePlural i18n sg pl count =
        I18n.replaceFirstPercentSD
          (match (BeltMap.get i18n.catalogs (Locale.toString i18n.currentLocale)).bind
                   (fun c => Catalog.get c sg) with
           | some (.Plural pf) =>
              pluralProject pf (Plural.selectForLocale count i18n.currentLocale)
           | some (.Simple s) => s
           | _ =>
              match Plural.selectForLocale count i18n.currentLocale with
              | .One => sg
              | _ => pl)
          (ratToString count)) ∧
    I18n.translatePlural enEngine "%s cat" "%s cats" 1 = "1 cat" ∧
    I18n.translatePlural enEngine "%s cat" "%s cats" 3 = "3 cats" := by
  refine ⟨fun i18n sg pl count => rfl, by decide, by decide⟩

/-- A catalog holding a `Simple` entry under "x". -/
def simpleEntryCatalog : Catalog.t :=
  Catalog.set (Catalog.empty enLocale) "x" (.Simple "Hello")

/-- `enEngine` with `simpleEntryCatalog` as the English catalog. -/
def simpleEntryEngine : I18n.t :=
  { enEngine with catalogs := BeltMap.set enEngine.catalogs "en" simpleEntryCatalog }

/-- Counterexample to C3 as stated: with a `Simple` entry under the
singular key, `translatePlural` returns that string, not the literal
plural key the claim requires for category `Other` (count 3). -/
theorem translatePlural_simple_entry_cex :
    I18n.translatePlural simpleEntryEngine "x" "xs" 3 = "Hello" ∧
    "Hello" ≠ "xs" :=
  ⟨by decide, by decide⟩

/-! ## C1 -/

/-- `tryLocale` depends on a locale only through its canonical string. -/
theorem tryLocale_congr (i18n : I18n.t) (key : String) {a b : Locale.t}
    (h : a.raw = b.raw) : I18n.tryLocale i18n key a = I18n.tryLocale i18n key b := by
  simp [I18n.tryLocale, Locale.toString, h]

/-- C1 (amended): when no missing-key handler is configured, `translate`
returns the first string found in (a) the current locale's catalog, (b)
the catalog of the current locale's configured fallback if any, (c) the
default locale's catalog, and otherwise the key itself; it never fails
(it is a total function).  A configured missing-key handler replaces the
key-echo (see the counterexample). -/
theorem translate_fallback_chain (i18n : I18n.t) (key : String)
    (h : i18n.config.missingKeyHandler = none) :
    I18n.translate i18n key =
      (((I18n.tryLocale i18n key i18n.currentLocale).orElse fun _ =>
          (BeltMap.get i18n.config.fallbacks (Locale.toString i18n.currentLocale)).bind
            (I18n.tryLocale i18n key)).orElse fun _ =>
        I18n.tryLocale i18n key i18n.config.defaultLocale).getD key := by
  unfold I18n.translate
  rw [h]
  cases hfb : BeltMap.get i18n.config.fallbacks (Locale.toString i18n.currentLocale) with
  | none =>
    by_cases hd : Locale.eq i18n.currentLocale i18n.config.defaultLocale = true
    · have hraw : i18n.currentLocale.raw = i18n.config.defaultLocale.raw := by
        simpa [Locale.eq] using hd
      cases ht : I18n.tryLocale i18n key i18n.currentLocale with
      | some v =>
        simp [hfb, hd, ht, List.foldl, Option.orElse]
      | none =>
        have ht2 : I18n.tryLocale i18n key i18n.config.defaultLocale = none := by
          rw [← tryLocale_congr i18n key hraw, ht]
        simp [hfb, hd, ht, ht2, List.foldl, Option.orElse]
    · cases ht : I18n.tryLocale i18n key i18n.currentLocale with
      | some v => simp [hfb, hd, ht, List.foldl, Option.orElse]
      | none =>
        cases htd : I18n.tryLocale i18n key i18n.config.defaultLocale with
        | some v => simp [hfb, hd, ht, htd, List.foldl, Option.orElse]
        | none => simp [hfb, hd, ht, htd, List.foldl, Option.orElse]
  | some fb =>
    by_cases hd : Locale.eq i18n.currentLocale i18n.config.defaultLocale = true
    · have hraw : i18n.currentLocale.raw = i18n.config.defaultLocale.raw := by
        simpa [Locale.eq] using hd
      cases ht : I18n.tryLocale i18n key i18n.currentLocale with
      | some v => simp [hfb, hd, ht, List.foldl, Option.orElse]
      | none =>
        have ht2 : I18n.tryLocale i18n key i18n.config.defaultLocale = none := by
          rw [← tryLocale_congr i18n key hraw, ht]
        cases htf : I18n.tryLocale i18n key fb with
        | some v => simp [hfb, hd, ht, ht2, htf, List.foldl, Option.orElse]
        | none => simp [hfb, hd, ht, ht2, htf, List.foldl, Option.orElse]
    · by_cases hdf : Locale.eq fb i18n.config.defaultLocale = true
      · have hraw : fb.raw = i18n.config.defaultLocale.raw := by
          simpa [Locale.eq] using hdf
        cases ht : I18n.tryLocale i18n key i18n.currentLocale with
        | some v => simp [hfb, hd, hdf, ht, List.foldl, Option.orElse]
        | none =>
          cases htf : I18n.tryLocale i18n key fb with
          | some v => simp [hfb, hd, hdf, ht, htf, List.foldl, Option.orElse]
          | none =>
            have ht2 : I18n.tryLocale i18n key i18n.config.defaultLocale = none := by
              rw [← tryLocale_congr i18n key hraw, htf]
            simp [hfb, hd, hdf, ht, htf, ht2, List.foldl, Option.orElse]
      · cases ht : I18n.tryLocale i18n key i18n.currentLocale with
        | some v => simp [hfb, hd, hdf, ht, List.foldl, Option.orElse]
        | none =>
          cases htf : I18n.tryLocale i18n key fb with
          | some v => simp [hfb, hd, hdf, ht, htf, List.foldl, Option.orElse]
          | none =>
            cases htd : I18n.tryLocale i18n key i18n.config.defaultLocale with
            | some v => simp [hfb, hd, hdf, ht, htf, htd, List.foldl, Option.orElse]
            | none => simp [hfb, hd, hdf, ht, htf, htd, List.foldl, Option.orElse]

/-- Witness for C1 at the handler-free engine `enEngine`. -/
theorem translate_fallback_chain_witness :
    I18n.translate enEngine "greeting" =
      (((I18n.tryLocale enEngine "greeting" enEngine.currentLocale).orElse fun _ =>
          (BeltMap.get enEngine.config.fallbacks (Locale.toString enEngine.currentLocale)).bind
            (I18n.tryLocale enEngine "greeting")).orElse fun _ =>
        I18n.tryLocale enEngine "greeting" enEngine.config.defaultLocale).getD "greeting" :=
  translate_fallback_chain enEngine "greeting" rfl

/-- `enConfig` with a missing-key handler installed. -/
def handlerConfig : I18n.config :=
  { enConfig with missingKeyHandler := some (fun _ k => "MISSING:" ++ k) }

/-- The engine `I18n.make handlerConfig`. -/
def handlerEngine : I18n.t := I18n.make handlerConfig

/-- Counterexample to C1 as stated: with a missing-key handler configured,
a key that is absent along the whole chain does not come back verbatim. -/
theorem translate_missing_key_handler_cex :
    I18n.translate handlerEngine "greeting" = "MISSING:greeting" ∧
    "MISSING:greeting" ≠ "greeting" :=
  ⟨by decide, by decide⟩

/-! ## C4 -/

/-- Reading back the key just written. -/
theorem BeltMap.get_set_self {α : Type} (m : List (String × α)) (k : String) (v : α) :
    BeltMap.get (BeltMap.set m k v) k = some v := by
  induction m with
  | nil => simp [BeltMap.set, BeltMap.get, List.find?_cons]
  | cons p rest ih =>
    obtain ⟨k', v'⟩ := p
    by_cases h1 : strLtB k k' = true
    · simp [BeltMap.set, h1, BeltMap.get, List.find?_cons]
    · by_cases h2 : (k == k') = true
      · simp [BeltMap.set, h1, h2, BeltMap.get, List.find?_cons]
      · have h2' : k ≠ k' := by simpa [beq_iff_eq] using h2
        have hne : (k' == k) = false := beq_eq_false_iff_ne.mpr (Ne.symm h2')
        simpa [BeltMap.set, h1, h2, BeltMap.get, List.find?_cons, hne] using ih

/-- Writing one key leaves every other key unchanged. -/
theorem BeltMap.get_set_ne {α : Type} (m : List (String × α)) (k : String) (v : α)
    (k2 : String) (h : k2 ≠ k) :
    BeltMap.get (BeltMap.set m k v) k2 = BeltMap.get m k2 := by
  have hkk2 : (k == k2) = false := beq_eq_false_iff_ne.mpr (Ne.symm h)
  induction m with
  | nil => simp [BeltMap.set, BeltMap.get, List.find?_cons, hkk2]
  | cons p rest ih =>
    obtain ⟨k', v'⟩ := p
    by_cases h1 : strLtB k k' = true
    · simp [BeltMap.set, h1, BeltMap.get, List.find?_cons, hkk2]
    · by_cases h2 : (k == k') = true
      · have hk : k = k' := by simpa [beq_iff_eq] using h2
        subst hk
        simp [BeltMap.set, h1, BeltMap.get, List.find?_cons, hkk2]
      · by_cases h3 : (k' == k2) = true
        · simp [BeltMap.set, h1, h2, BeltMap.get, List.find?_cons, h3]
        · simpa [BeltMap.set, h1, h2, BeltMap.get, List.find?_cons, h3] using ih

/-- Lookup after folding `set` over a key list with a pointwise value. -/
theorem BeltMap.get_foldl_set {α : Type} (keys : List String) (f : String → α)
    (acc : List (String × α)) (k : String) :
    BeltMap.get (keys.foldl (fun m key => BeltMap.set m key (f key)) acc) k =
      if k ∈ keys then some (f k) else BeltMap.get acc k := by
  induction keys generalizing acc with
  | nil => simp
  | cons a rest ih =>
    rw [List.foldl_cons, ih]
    by_cases hmem : k ∈ rest
    · simp [hmem]
    · by_cases hk : k = a
      · subst hk
        simp [hmem, BeltMap.get_set_self]
      · simp [hmem, hk, BeltMap.get_set_ne _ _ _ _ hk]

/-- Membership through one sorted-unique insertion. -/
theorem BeltMap.mem_insertSortedUnique (l : List String) (k x : String) :
    x ∈ BeltMap.insertSortedUnique l k ↔ x ∈ l ∨ x = k := by
  induction l with
  | nil => simp [BeltMap.insertSortedUnique, eq_comm]
  | cons a rest ih =>
    by_cases h1 : strLtB k a = true
    · simp [BeltMap.insertSortedUnique, h1, eq_comm]
      tauto
    · by_cases h2 : (k == a) = true
      · have hk : k = a := by simpa [beq_iff_eq] using h2
        subst hk
        simp [BeltMap.insertSortedUnique, h1]
        tauto
      · simp [BeltMap.insertSortedUnique, h1, h2, ih]
        tauto

/-- The set-of-keys construction preserves membership. -/
theorem BeltMap.mem_sortedUniqueKeys (l : List String) (x : String) :
    x ∈ BeltMap.sortedUniqueKeys l ↔ x ∈ l := by
  suffices hgen : ∀ acc : List String,
      x ∈ l.foldl BeltMap.insertSortedUnique acc ↔ x ∈ acc ∨ x ∈ l by
    simpa [BeltMap.sortedUniqueKeys] using hgen []
  induction l with
  | nil => simp
  | cons a rest ih =>
    intro acc
    rw [List.foldl_cons, ih]
    rw [BeltMap.mem_insertSortedUnique]
    simp
    tauto

/-- A key looks up successfully exactly when it is among the map's keys. -/
theorem BeltMap.get_isSome_iff_mem {α : Type} (m : List (String × α)) (k : String) :
    (BeltMap.get m k).isSome = true ↔ k ∈ BeltMap.keysToArray m := by
  induction m with
  | nil => simp [BeltMap.get, BeltMap.keysToArray]
  | cons p rest ih =>
    obtain ⟨k', v'⟩ := p
    by_cases h : (k' == k) = true
    · have : k' = k := by simpa [beq_iff_eq] using h
      subst this
      simp [BeltMap.get, BeltMap.keysToArray, List.find?_cons, h]
    · have hne : k' ≠ k := by simpa [beq_iff_eq] using h
      simp only [BeltMap.get, BeltMap.keysToArray] at ih ⊢
      simp [List.find?_cons, h, ih, hne, Ne.symm hne]

/-- `mergeTranslations` pointwise: the overlay's binding wins, else the
base's, else the key is absent. -/
theorem Catalog.mergeTranslations_get (a b : Catalog.translations) (k : String) :
    BeltMap.get (Catalog.mergeTranslations a b) k =
      ((BeltMap.get b k).orElse fun _ => BeltMap.get a k) := by
  unfold Catalog.mergeTranslations
  rw [BeltMap.get_foldl_set]
  by_cases hmem : k ∈ BeltMap.sortedUniqueKeys (BeltMap.keysToArray a ++ BeltMap.keysToArray b)
  · rw [if_pos hmem]
    cases hb : BeltMap.get b k with
    | some v => simp [hb, Option.orElse]
    | none =>
      cases ha : BeltMap.get a k with
      | some v => simp [ha, hb, Option.orElse]
      | none =>
        exfalso
        rw [BeltMap.mem_sortedUniqueKeys, List.mem_append] at hmem
        rcases hmem with hma | hmb
        · rw [← BeltMap.get_isSome_iff_mem] at hma
          rw [ha] at hma
          cases hma
        · rw [← BeltMap.get_isSome_iff_mem] at hmb
          rw [hb] at hmb
          cases hmb
  · rw [if_neg hmem]
    rw [BeltMap.mem_sortedUniqueKeys, List.mem_append] at hmem
    push_neg at hmem
    obtain ⟨hma, hmb⟩ := hmem
    rw [← BeltMap.get_isSome_iff_mem] at hma hmb
    cases ha : BeltMap.get a k with
    | some v => rw [ha] at hma; cases hma rfl
    | none =>
      cases hb : BeltMap.get b k with
      | some v => rw [hb] at hmb; cases hmb rfl
      | none => simp [BeltMap.get, Option.orElse, hb, ha]

/-- C4 (amended): for every single-segment key (no "." in it, expressed as
the key splitting to itself), `get` after `merge` returns the overlay's
value when present, else the base's, else `none`; the merged catalog's
locale and metadata come from the overlay.  For dotted keys the claim
fails because `merge` unions only the top level (see the counterexample). -/
theorem merge_get_overlay_wins (a b : Catalog.t) (k : String)
    (hk : jsSplit '.' k = [k]) :
    Catalog.get (Catalog.merge a b) k =
      ((Catalog.get b k).orElse fun _ => Catalog.get a k) ∧
    (Catalog.merge a b).locale = b.locale ∧
    (Catalog.merge a b).metadata = b.metadata := by
  refine ⟨?_, rfl, rfl⟩
  unfold Catalog.get
  rw [hk]
  show Catalog.traverse (Catalog.mergeTranslations a.translations b.translations) [k] = _
  simp only [Catalog.traverse]
  rw [Catalog.mergeTranslations_get]

/-- Base catalog with a nested entry under "x". -/
def dottedBase : Catalog.t :=
  { locale := enLocale
    translations := [("x", .Nested [("y", .Simple "1")])]
    metadata := { version := none, lastModified := none, source := none } }

/-- Overlay catalog with a `Simple` entry under the same top key "x". -/
def dottedOverlay : Catalog.t :=
  { locale := enLocale
    translations := [("x", .Simple "2")]
    metadata := { version := none, lastModified := none, source := none } }

/-- Counterexample to C4 as stated: at the dotted key "x.y" the merged
catalog yields `none`, although the overlay has no value there and the
base has one — the claim requires the base's value. -/
theorem merge_get_nested_shadow_cex :
    Catalog.get (Catalog.merge dottedBase dottedOverlay) "x.y" = none ∧
    Catalog.get dottedOverlay "x.y" = none ∧
    Catalog.get dottedBase "x.y" = some (.Simple "1") :=
  ⟨rfl, rfl, rfl⟩

/-- Base catalog fixture for the C4 witness. -/
def witnessBase : Catalog.t :=
  { locale := enLocale
    translations := [("greeting", .Simple "hello"), ("title", .Simple "base title")]
    metadata := { version := none, lastModified := none, source := none } }

/-- Overlay catalog fixture for the C4 witness. -/
def witnessOverlay : Catalog.t :=
  { locale := deLocale
    translations := [("greeting", .Simple "hallo")]
    metadata := { version := some "2", lastModified := none, source := none } }

/-- Witness for C4 at concrete catalogs and the key "greeting". -/
theorem merge_get_overlay_wins_witness :
    (Catalog.get (Catalog.merge witnessBase witnessOverlay) "greeting" =
      ((Catalog.get witnessOverlay "greeting").orElse fun _ =>
        Catalog.get witnessBase "greeting") ∧
     (Catalog.merge witnessBase witnessOverlay).locale = witnessOverlay.locale ∧
     (Catalog.merge witnessBase witnessOverlay).metadata = witnessOverlay.metadata) :=
  merge_get_overlay_wins witnessBase witnessOverlay "greeting" rfl

/-! ## C6 -/

/-- Lowercasing an ASCII letter yields a lowercase letter. -/
theorem lowerChar_isLower (c : Char) (h : Locale.isAsciiLetterB c = true) :
    Locale.isLowerB (lowerChar c) = true := by
  rcases Bool.or_eq_true_iff.mp (by simpa [Locale.isAsciiLetterB] using h) with hl | hu
  · have hm : c ∈ Locale.lowerChars := by
      simpa [Locale.isLowerB, List.elem_iff] using hl
    fin_cases hm <;> decide
  · have hm : c ∈ Locale.upperChars := by
      simpa [Locale.isUpperB, List.elem_iff] using hu
    fin_cases hm <;> decide

/-- Lowercasing fixes a lowercase letter. -/
theorem lowerChar_fix (c : Char) (h : Locale.isLowerB c = true) : lowerChar c = c := by
  have hm : c ∈ Locale.lowerChars := by
    simpa [Locale.isLowerB, List.elem_iff] using h
  fin_cases hm <;> decide

/-- Lowercase letters are not the subtag separator. -/
theorem isLowerB_ne_dash (c : Char) (h : Locale.isLowerB c = true) : c ≠ '-' := by
  have hm : c ∈ Locale.lowerChars := by
    simpa [Locale.isLowerB, List.elem_iff] using h
  fin_cases hm <;> decide

/-- Splitting a separator-free character list yields one segment. -/
theorem jsSplitAux_no_sep (sep : Char) (l acc : List Char)
    (h : ∀ c ∈ l, c ≠ sep) :
    jsSplitAux sep l acc = [String.mk (acc.reverse ++ l)] := by
  induction l generalizing acc with
  | nil => simp [jsSplitAux]
  | cons c rest ih =>
    have hc : c ≠ sep := h c (by simp)
    rw [jsSplitAux, if_neg hc]
    rw [ih _ (fun d hd => h d (by simp [hd]))]
    simp

/-- Splitting a separator-free string yields the string itself. -/
theorem jsSplit_no_sep (sep : Char) (s : String) (h : ∀ c ∈ s.toList, c ≠ sep) :
    jsSplit sep s = [s] := by
  unfold jsSplit
  rw [jsSplitAux_no_sep sep _ _ h]
  cases s
  simp [String.toList]

theorem toList_jsToLower (s : String) :
    (jsToLower s).toList = s.toList.map lowerChar := by
  simp [jsToLower, String.toList]

/-- The language pattern survives lowercasing. -/
theorem languagePattern_toLower (lang : String) (h : Locale.languagePattern lang = true) :
    Locale.languagePattern (jsToLower lang) = true := by
  unfold Locale.languagePattern at h ⊢
  rw [toList_jsToLower]
  rw [Bool.and_eq_true] at h ⊢
  obtain ⟨hlen, hall⟩ := h
  constructor
  · simpa using hlen
  · rw [List.all_eq_true] at hall ⊢
    intro c hc
    rw [List.mem_map] at hc
    obtain ⟨d, hd, rfl⟩ := hc
    have := hall d hd
    exact Bool.or_eq_true_iff.mpr (Or.inl (lowerChar_isLower d this))

/-- Every character of a lowercased language subtag is lowercase. -/
theorem jsToLower_chars_lower (lang : String) (h : Locale.languagePattern lang = true) :
    ∀ c ∈ (jsToLower lang).toList, Locale.isLowerB c = true := by
  intro c hc
  rw [toList_jsToLower, List.mem_map] at hc
  obtain ⟨d, hd, rfl⟩ := hc
  unfold Locale.languagePattern at h
  rw [Bool.and_eq_true] at h
  rw [List.all_eq_true] at h
  exact lowerChar_isLower d (h.2 d hd)

/-- Lowercasing fixes an all-lowercase string. -/
theorem jsToLower_fix (s : String) (h : ∀ c ∈ s.toList, Locale.isLowerB c = true) :
    jsToLower s = s := by
  cases s with
  | mk data =>
    simp only [jsToLower, String.toList] at h ⊢
    congr 1
    exact List.map_congr_left (fun c hc => lowerChar_fix c (h c hc)) |>.trans
      (List.map_id data)

theorem intercalate_singleton (sep x : String) : String.intercalate sep [x] = x := by
  simp [String.intercalate, String.intercalate.go]

/-- Parsing a lowercased valid language subtag yields the bare-language
locale over that subtag. -/
theorem fromString_toLower_lang (lang : String) (h : Locale.languagePattern lang = true) :
    Locale.fromString (jsToLower lang) =
      some { tag := { language := jsToLower lang, script := none, region := none,
                      variants := [] }
             raw := jsToLower lang } := by
  have hchars := jsToLower_chars_lower lang h
  have hnd : ∀ c ∈ (jsToLower lang).toList, c ≠ '-' :=
    fun c hc => isLowerB_ne_dash c (hchars c hc)
  have hsp : jsSplit '-' (jsToLower lang) = [jsToLower lang] :=
    jsSplit_no_sep '-' _ hnd
  have hpat := languagePattern_toLower lang h
  have hfix : jsToLower (jsToLower lang) = jsToLower lang :=
    jsToLower_fix _ hchars
  unfold Locale.fromString Locale.LanguageTag.parse
  rw [hsp]
  simp only [hpat, if_pos]
  simp [Locale.LanguageTag.toString, hfix, intercalate_singleton]

/-- C6 (amended): for every validly parsed locale, `parent` drops every
subtag at once — a locale with a region or a script (or both) has the
bare-language locale as its parent (the script is not retained), and a
locale with neither has no parent. -/
theorem parent_drops_to_bare_language (s : String) (l : Locale.t)
    (h : Locale.fromString s = some l) :
    (l.tag.region = none ∧ l.tag.script = none → Locale.parent l = none) ∧
    ((l.tag.region).isSome = true ∨ (l.tag.script).isSome = true →
      Locale.parent l =
        some { tag := { language := l.tag.language, script := none, region := none,
                        variants := [] }
               raw := l.tag.language }) := by
  have hlang : Locale.languagePattern l.tag.language = true ∧
      jsToLower l.tag.language = l.tag.language := by
    unfold Locale.fromString Locale.LanguageTag.parse at h
    cases hsp : jsSplit '-' s with
    | nil => rw [hsp] at h; simp at h
    | cons lang rest =>
      rw [hsp] at h
      dsimp only at h
      by_cases hpat : Locale.languagePattern lang = true
      · rw [if_pos hpat] at h
        have htag : l.tag.language = jsToLower lang := by
          cases h
          rfl
        rw [htag]
        refine ⟨languagePattern_toLower lang hpat,
          jsToLower_fix _ (jsToLower_chars_lower lang hpat)⟩
      · rw [if_neg hpat] at h
        simp at h
  constructor
  · rintro ⟨hr, hs⟩
    simp [Locale.parent, hr, hs]
  · intro hor
    have hfrom := fromString_toLower_lang l.tag.language hlang.1
    rw [hlang.2] at hfrom
    cases hr : l.tag.region with
    | some r =>
      simp only [Locale.parent, hr]
      exact hfrom
    | none =>
      cases hs : l.tag.script with
      | some sc =>
        simp only [Locale.parent, hr, hs]
        exact hfrom
      | none =>
        rw [hr, hs] at hor
        simp at hor

/-- Witness for C6 at the region-bearing locale "en-US". -/
theorem parent_drops_to_bare_language_witness :
    ((enUSLocale.tag.region = none ∧ enUSLocale.tag.script = none →
        Locale.parent enUSLocale = none) ∧
     ((enUSLocale.tag.region).isSome = true ∨ (enUSLocale.tag.script).isSome = true →
        Locale.parent enUSLocale =
          some { tag := { language := enUSLocale.tag.language, script := none,
                          region := none, variants := [] }
                 raw := enUSLocale.tag.language })) :=
  parent_drops_to_bare_language "en-US" enUSLocale (by decide)

/-- Counterexample to C6 as stated: the parent of "zh-Hans-CN" is the bare
"zh" with no script, not the script-retaining "zh-Hans" the claim
requires. -/
theorem parent_script_region_cex :
    ((Locale.fromString "zh-Hans-CN").bind Locale.parent).map
        (fun p => (Locale.toString p, p.tag.script)) = some ("zh", none) ∧
    ((Locale.fromString "zh-Hans-CN").map (fun l => l.tag.script)) = some (some "Hans") ∧
    some (("zh" : String), (none : Option String)) ≠ some ("zh-Hans", some "Hans") := by
  refine ⟨by decide, by decide, by decide⟩

/-! ## C7 -/

theorem charListLt_irrefl (l : List Char) : charListLt l l = false := by
  induction l with
  | nil => rfl
  | cons a as ih => simp [charListLt, lt_irrefl, ih]

theorem charListLt_asymm (l1 l2 : List Char) (h : charListLt l1 l2 = true) :
    charListLt l2 l1 = false := by
  induction l1 generalizing l2 with
  | nil =>
    cases l2 with
    | nil => simp [charListLt] at h
    | cons b bs => simp [charListLt]
  | cons a as ih =>
    cases l2 with
    | nil => simp [charListLt] at h
    | cons b bs =>
      by_cases hab : a < b
      · have hba : ¬ b < a := lt_asymm hab
        simp [charListLt, hab, hba]
      · by_cases hba : b < a
        · simp [charListLt, hab, hba] at h
        · simp only [charListLt, if_neg hab, if_neg hba] at h
          simp only [charListLt, if_neg hba, if_neg hab]
          exact ih bs h

theorem strLtB_ne (a b : String) (h : strLtB a b = true) : a ≠ b := by
  intro hh
  subst hh
  rw [strLtB, charListLt_irrefl] at h
  cases h

theorem strLtB_asymm (a b : String) (h : strLtB a b = true) : strLtB b a = false :=
  charListLt_asymm a.toList b.toList h

/-- Inserting a key greater than every key present appends. -/
theorem BeltMap.set_append_of_gt {α : Type} (m : List (String × α)) (k : String) (v : α)
    (h : ∀ p ∈ m, strLtB p.1 k = true) :
    BeltMap.set m k v = m ++ [(k, v)] := by
  induction m with
  | nil => rfl
  | cons p rest ih =>
    obtain ⟨k', v'⟩ := p
    have hlt : strLtB k' k = true := h (k', v') (by simp)
    have h1 : strLtB k k' = false := strLtB_asymm k' k hlt
    have h2 : (k == k') = false :=
      beq_eq_false_iff_ne.mpr (Ne.symm (strLtB_ne k' k hlt))
    rw [BeltMap.set, if_neg (by simp [h1]), if_neg (by simp [h2])]
    rw [ih (fun q hq => h q (by simp [hq]))]
    rfl

/-- Setting an absent key appends to a JS dict. -/
theorem jsDictSet_append {α : Type} (d : List (String × α)) (k : String) (v : α)
    (h : ∀ p ∈ d, (p.1 == k) = false) :
    jsDictSet d k v = d ++ [(k, v)] := by
  induction d with
  | nil => rfl
  | cons p rest ih =>
    obtain ⟨k', v'⟩ := p
    have h1 : (k' == k) = false := h (k', v') (by simp)
    rw [jsDictSet, if_neg (by simp [h1])]
    rw [ih (fun q hq => h q (by simp [hq]))]
    simp

/-- An absent key looks up to `none` in a JS dict. -/
theorem jsDictGet_eq_none {α : Type} (d : List (String × α)) (k : String)
    (h : ∀ p ∈ d, (p.1 == k) = false) :
    jsDictGet d k = none := by
  induction d with
  | nil => rfl
  | cons p rest ih =>
    obtain ⟨k', v'⟩ := p
    have h1 : (k' == k) = false := h (k', v') (by simp)
    rw [jsDictGet] at ih ⊢
    rw [List.find?_cons, h1]
    exact ih (fun q hq => h q (by simp [hq]))

namespace Catalog

/-- A key strictly below every key of a map. -/
def keysLtAllB (k : String) (m : translations) : Bool :=
  m.all (fun p => strLtB k p.1)

mutual

/-- Round-trippable values: any `Simple` or `Plural`; a `Nested` map that
contains no "other" key (else `fromJson` reparses the object as `Plural`
or drops it) and is a well-formed Belt map of round-trippable values. -/
def goodValueB : translationValue → Bool
  | .Simple _ => true
  | .Plural _ => true
  | .Nested m => m.all (fun p => !(p.1 == "other")) && goodMapB m

/-- Well-formed Belt map of round-trippable values: strictly ascending
keys (as Belt maps are by construction) and round-trippable values. -/
def goodMapB : translations → Bool
  | [] => true
  | p :: rest => goodValueB p.2 && keysLtAllB p.1 rest && goodMapB rest

end

theorem goodMapB_mem_good (m : translations) (h : goodMapB m = true) :
    ∀ p ∈ m, goodValueB p.2 = true := by
  induction m with
  | nil => intro p hp; cases hp
  | cons q rest ih =>
    rw [goodMapB, Bool.and_eq_true, Bool.and_eq_true] at h
    intro p hp
    rcases List.mem_cons.mp hp with rfl | hp2
    · exact h.1.1
    · exact ih h.2 p hp2

/-- Serializing a well-formed map into a dict is entry-wise mapping. -/
theorem entriesToJson_eq_map (m : translations) (obj : List (String × Json))
    (hm : goodMapB m = true)
    (hdisj : ∀ p ∈ m, ∀ q ∈ obj, (q.1 == p.1) = false) :
    entriesToJson m obj = obj ++ m.map (fun p => (p.1, valueToJson p.2)) := by
  induction m generalizing obj with
  | nil => simp [entriesToJson]
  | cons p rest ih =>
    obtain ⟨k, v⟩ := p
    rw [goodMapB, Bool.and_eq_true, Bool.and_eq_true] at hm
    obtain ⟨⟨hv, hklt⟩, hrest⟩ := hm
    rw [keysLtAllB, List.all_eq_true] at hklt
    have hdisj2 : ∀ p2 ∈ rest, ∀ q ∈ obj ++ [(k, valueToJson v)],
        (q.1 == p2.1) = false := by
      intro p2 hp2 q hq
      rcases List.mem_append.mp hq with hq1 | hq2
      · exact hdisj p2 (by simp [hp2]) q hq1
      · have hqe : q = (k, valueToJson v) := by simpa using hq2
        subst hqe
        exact beq_eq_false_iff_ne.mpr (strLtB_ne _ _ (hklt p2 hp2))
    rw [entriesToJson]
    rw [jsDictSet_append _ _ _ (fun q hq => hdisj (k, v) (by simp) q hq)]
    rw [ih _ hrest hdisj2]
    simp

/-- Folding `parseEntries` over per-value-successful serialized entries of
a well-formed map rebuilds that map behind the accumulator. -/
theorem parseEntries_reconstruct (m : translations) (acc : translations)
    (hm : goodMapB m = true)
    (hacc : ∀ q ∈ acc, ∀ p ∈ m, strLtB q.1 p.1 = true)
    (hparse : ∀ p ∈ m, parseValue (valueToJson p.2) = some p.2) :
    parseEntries (m.map fun p => (p.1, valueToJson p.2)) acc = acc ++ m := by
  induction m generalizing acc with
  | nil => simp [parseEntries]
  | cons p rest ih =>
    obtain ⟨k, v⟩ := p
    rw [goodMapB, Bool.and_eq_true, Bool.and_eq_true] at hm
    obtain ⟨⟨hv, hklt⟩, hrest⟩ := hm
    rw [List.map_cons, parseEntries, hparse (k, v) (by simp)]
    dsimp only
    rw [BeltMap.set_append_of_gt _ _ _ (fun q hq => hacc q hq (k, v) (by simp))]
    rw [keysLtAllB, List.all_eq_true] at hklt
    rw [ih (acc ++ [(k, v)]) hrest
      (by
        intro q hq p2 hp2
        rcases List.mem_append.mp hq with hq1 | hq2
        · exact hacc q hq1 p2 (by simp [hp2])
        · have hqe : q = (k, v) := by simpa using hq2
          subst hqe
          exact hklt p2 hp2)
      (fun p2 hp2 => hparse p2 (by simp [hp2]))]
    simp

/-- `parseValue` undoes `valueToJson` on round-trippable values (strong
induction on the value's size). -/
theorem parseValue_valueToJson_aux (n : Nat) :
    ∀ (v : translationValue), sizeOf v ≤ n → goodValueB v = true →
      parseValue (valueToJson v) = some v := by
  induction n with
  | zero =>
    intro v hn
    exfalso
    cases v <;> simp at hn
  | succ n ih =>
    intro v hn hg
    match v with
    | .Simple s => rfl
    | .Plural pf =>
      obtain ⟨z, o, t, f, mny, oth⟩ := pf
      cases z <;> cases o <;> cases t <;> cases f <;> cases mny <;> rfl
    | .Nested m =>
      rw [goodValueB, Bool.and_eq_true] at hg
      obtain ⟨hno, hmap⟩ := hg
      rw [List.all_eq_true] at hno
      have hparse : ∀ p ∈ m, parseValue (valueToJson p.2) = some p.2 := by
        intro p hp
        have hs1 : sizeOf p < sizeOf m := List.sizeOf_lt_of_mem hp
        have hs2 : sizeOf p.2 < sizeOf p := by
          obtain ⟨a, b⟩ := p
          simp
        have hs3 : sizeOf (translationValue.Nested m) = 1 + sizeOf m := by simp
        refine ih p.2 (by omega) (goodMapB_mem_good m hmap p hp)
      have hmapped := entriesToJson_eq_map m [] hmap (by intro p hp q hq; cases hq)
      rw [valueToJson, hmapped, List.nil_append]
      have hkeys : ∀ q ∈ List.map (fun p => (p.1, valueToJson p.2)) m,
          (q.1 == "other") = false := by
        intro q hq
        rw [List.mem_map] at hq
        obtain ⟨p, hp, rfl⟩ := hq
        simpa using hno p hp
      rw [parseValue]
      rw [jsDictGet_eq_none _ _ hkeys]
      simp only [Option.isSome_none, Bool.false_eq_true, if_neg]
      rw [parseEntries_reconstruct m [] hmap (by intro q hq; cases hq) hparse]
      simp

theorem parseValue_valueToJson (v : translationValue) (h : goodValueB v = true) :
    parseValue (valueToJson v) = some v :=
  parseValue_valueToJson_aux (sizeOf v) v le_rfl h

end Catalog

/-- C7 (amended): `fromJson` (at the catalog's locale) undoes `toJson` on
the translations of every catalog whose translation map is a well-formed
Belt map in which no `Nested` value contains the key "other" — `Simple`,
`Plural` and such `Nested` entries all round-trip unchanged.  A `Nested`
map holding an "other" key is reparsed as a `Plural` entry (or dropped
when "other" maps to a non-string), see the counterexample. -/
theorem fromJson_toJson_roundtrip (c : Catalog.t)
    (h : Catalog.goodMapB c.translations = true) :
    (Catalog.fromJson c.locale (Catalog.toJson c)).map Catalog.t.translations =
      Except.ok c.translations := by
  have hparse : ∀ p ∈ c.translations,
      Catalog.parseValue (Catalog.valueToJson p.2) = some p.2 :=
    fun p hp => Catalog.parseValue_valueToJson p.2 (Catalog.goodMapB_mem_good _ h p hp)
  have hmapped := Catalog.entriesToJson_eq_map c.translations [] h
    (by intro p hp q hq; cases hq)
  rw [Catalog.toJson, hmapped, List.nil_append]
  rw [Catalog.fromJson]
  rw [Catalog.parseEntries_reconstruct c.translations [] h (by intro q hq; cases hq)
    hparse]
  rfl

/-- A catalog exercising all three translation-value kinds. -/
def roundtripCatalog : Catalog.t :=
  { locale := enLocale
    translations :=
      [("greeting", .Simple "hi"),
       ("items", .Plural { zero := none, one := some "%s item", two := none,
                           few := none, many := none, other := "%s items" }),
       ("menu", .Nested [("edit", .Simple "Edit"), ("file", .Simple "File")])]
    metadata := { version := none, lastModified := none, source := none } }

/-- Witness for C7 at `roundtripCatalog`. -/
theorem fromJson_toJson_roundtrip_witness :
    (Catalog.fromJson roundtripCatalog.locale (Catalog.toJson roundtripCatalog)).map
        Catalog.t.translations = Except.ok roundtripCatalog.translations :=
  fromJson_toJson_roundtrip roundtripCatalog (by decide)

/-- A catalog with a `Nested` value holding the key "other". -/
def nestedOtherCatalog : Catalog.t :=
  { locale := enLocale
    translations := [("k", .Nested [("other", .Simple "x")])]
    metadata := { version := none, lastModified := none, source := none } }

/-- What `fromJson` makes of the serialized `nestedOtherCatalog` entry. -/
def reparsedOtherValue : Catalog.translationValue :=
  .Plural { zero := none, one := none, two := none, few := none, many := none,
            other := "x" }

/-- Counterexample to C7 as stated: serializing a `Nested` value holding
an "other" string deserializes to a `Plural` value, not the original. -/
theorem fromJson_toJson_nested_other_cex :
    (Catalog.fromJson nestedOtherCatalog.locale (Catalog.toJson nestedOtherCatalog)).map
        Catalog.t.translations = Except.ok [("k", reparsedOtherValue)] ∧
    nestedOtherCatalog.translations = [("k", .Nested [("other", .Simple "x")])] ∧
    ([("k", reparsedOtherValue)] : Catalog.translations) ≠
      [("k", .Nested [("other", .Simple "x")])] := by
  refine ⟨rfl, rfl, by simp [reparsedOtherValue]⟩

end I18nSpec
